import Mathlib

/-!
Verification of the osgEarth `SimplePager` quadtree pager
(src/src/osgEarthUtil/SimplePager.cpp) against its natural-language
specification.  The C++ is shallowly embedded below: unsigned arithmetic
becomes `Nat` reduced mod 2^32, floats become `ℝ`, pointers that may be null
become `Option`, and the external collaborators (TileKey subdivision, the
profile's coordinate transform, osg's incremental bounding sphere, `sscanf`)
are modelled from the specification's description of them, each marked in its
doc comment.
-/

/-! ## Frame-based cancellation (ProgressMaster / MyProgressCallback) -/

/-- 2^32, the modulus of the C++ `unsigned` frame counters. -/
def M32 : Nat := 4294967296

/-- Unsigned 32-bit subtraction `a - b`, as in the C++ expression
`_master->_frame - _lastFrame` on `unsigned` operands. -/
def usub32 (a b : Nat) : Nat := (a % M32 + (M32 - b % M32)) % M32

/-- State of `MyProgressCallback`: `_lastFrame`, and the observer pointer
`_master`, modelled as `some frame` while the `ProgressMaster` (which stores
`_frame`) is alive and `none` once it has been destroyed. -/
structure MyProgressCallback where
  lastFrame : Nat
  master : Option Nat

/-- `MyProgressCallback::isCanceled`:
`(!_master.valid()) || (_master->_frame - _lastFrame > 1u)`. -/
def MyProgressCallback.isCanceled (cb : MyProgressCallback) : Bool :=
  match cb.master with
  | none => true
  | some frame => decide (1 < usub32 frame cb.lastFrame)

/-! ## Tile keys -/

/-- A quadtree tile key `(level, x, y)`.  The profile reference carried by the
C++ `TileKey` is dropped: keys compare by the triple. -/
structure TileKey where
  lod : Nat
  x : Nat
  y : Nat
deriving DecidableEq

/-- Modelled from the spec: `TileKey::createChildKey` (the TileKey class lives
outside this repository).  The four children of `(L,X,Y)` are
`(L+1, 2X+dx, 2Y+dy)` for `dx,dy ∈ {0,1}`, in the canonical order
`q = 0,1,2,3` with `dx = q ∈ {1,3}`, `dy = q ∈ {2,3}`. -/
def TileKey.createChildKey (k : TileKey) (q : Nat) : TileKey :=
  { lod := k.lod + 1
    x := 2 * k.x + (if q = 1 ∨ q = 3 then 1 else 0)
    y := 2 * k.y + (if q = 2 ∨ q = 3 then 1 else 0) }

/-! ## Bounding spheres and the bounds estimator -/

/-- World space, `osg::Vec3d`. -/
abbrev E3 := EuclideanSpace ℝ (Fin 3)

/-- `osg::BoundingSphere`: a center and a radius; the default-constructed
sphere has radius `-1` and is invalid (`valid()` is `radius ≥ 0`). -/
structure BoundingSphere where
  center : E3
  radius : ℝ

/-- The default-constructed (invalid) bounding sphere. -/
noncomputable def BoundingSphere.initial : BoundingSphere := { center := 0, radius := -1 }

/-- Modelled from the spec: `osg::BoundingSphere::expandBy(point)` (osg is
outside this repository) — the incremental bounding-sphere expansion: an
invalid sphere becomes the degenerate sphere at the point; a point outside the
current sphere moves the center toward it and grows the radius so the new
sphere contains both the point and the old sphere. -/
noncomputable def BoundingSphere.expandBy (bs : BoundingSphere) (v : E3) : BoundingSphere :=
  if 0 ≤ bs.radius then
    let r := dist v bs.center
    if bs.radius < r then
      let dr := (r - bs.radius) / 2
      { center := bs.center + (dr / r) • (v - bs.center), radius := bs.radius + dr }
    else bs
  else { center := v, radius := 0 }

/-- A tile's extent in its native coordinate space (`GeoExtent`):
`xMin()`, `yMin()`, `width()`, `height()`. -/
structure GeoExtent where
  xMin : ℝ
  yMin : ℝ
  width : ℝ
  height : ℝ

/-- The sample grid of `SimplePager::getBounds`: `samples = 6`, and the two
loops run `c, r = 0 .. samples` inclusive, sampling
`(xMin + c*(width/samples), yMin + r*(height/samples))`. -/
noncomputable def samplePoints (e : GeoExtent) : List (ℝ × ℝ) :=
  let samples : Nat := 6
  let xSample := e.width / (samples : ℝ)
  let ySample := e.height / (samples : ℝ)
  (List.range (samples + 1)).flatMap fun (c : Nat) =>
    (List.range (samples + 1)).map fun (r : Nat) =>
      (e.xMin + (c : ℝ) * xSample, e.yMin + (r : ℝ) * ySample)

/-- `SimplePager::getBounds(key)`: expand an initially invalid sphere by the
world-space image of every sample point of the key's extent.  The
profile/SRS projection (`GeoPoint::transform` + `toWorld`) is the external
capability `world`. -/
noncomputable def getBounds (world : ℝ × ℝ → E3) (e : GeoExtent) : BoundingSphere :=
  (samplePoints e).foldl (fun bs q => bs.expandBy (world q)) BoundingSphere.initial

/-! ## The deferred-load identifier: encoding and the pseudo-loader's parse -/

/-- The fixed extension registered by `SimplePagerPseudoLoader`. -/
def pseudoLoaderExt : String := "osgearth_pseudo_simple"

/-- Decimal digits of `n`, most significant first, with structural fuel
(`fuel > n` suffices).  Models `std::stringstream << unsigned`. -/
def natToDecimalAux : Nat → Nat → List Char
  | 0, _ => []
  | fuel + 1, n =>
    if n < 10 then [Nat.digitChar n]
    else natToDecimalAux fuel (n / 10) ++ [Nat.digitChar (n % 10)]

/-- Decimal representation of `n`, as printed by `std::stringstream`. -/
def natToDecimal (n : Nat) : List Char := natToDecimalAux (n + 1) n

/-- The identifier built in `SimplePager::createPagedNode`:
`"<level>_<x>_<y>.osgearth_pseudo_simple"`. -/
def tileURI (key : TileKey) : String :=
  String.mk (natToDecimal key.lod ++
    '_' :: (natToDecimal key.x ++
      '_' :: (natToDecimal key.y ++ '.' :: pseudoLoaderExt.data)))

/-- Split a maximal leading run of decimal digits off a character list. -/
def takeDigits : List Char → List Char × List Char
  | [] => ([], [])
  | c :: cs =>
    if c.isDigit then
      let p := takeDigits cs
      (c :: p.1, p.2)
    else ([], c :: cs)

/-- The number denoted by a list of decimal digits (most significant first). -/
def digitsToNat (ds : List Char) : Nat :=
  ds.foldl (fun a c => 10 * a + (c.toNat - 48)) 0

/-- Modelled from the spec: `sscanf(uri, "%d_%d_%d.%*s")` (libc is outside
this repository) — parse three decimal integers separated by underscores from
the front of the string.  When the format does not match, the C code leaves
its output variables untouched (uninitialized); that is modelled as `none`. -/
def scanTriple (s : String) : Option (Nat × Nat × Nat) :=
  let p1 := takeDigits s.data
  if p1.1 = [] then none else
  match p1.2 with
  | '_' :: r2 =>
    let p2 := takeDigits r2
    if p2.1 = [] then none else
    match p2.2 with
    | '_' :: r4 =>
      let p3 := takeDigits r4
      if p3.1 = [] then none
      else some (digitsToNat p1.1, digitsToNat p2.1, digitsToNat p3.1)
    | _ => none
  | _ => none

/-- The characters of a name after its last dot, `none` when it has no dot. -/
def extAfterLastDot : List Char → Option (List Char)
  | [] => none
  | c :: rest =>
    match extAfterLastDot rest with
    | some e => some e
    | none => if c = '.' then some rest else none

/-- Modelled from the spec: `osgDB::getLowerCaseFileExtension` (osgDB is
outside this repository) — the suffix after the final dot, lowercased, and the
empty string when there is no dot. -/
def getLowerCaseFileExtension (s : String) : String :=
  String.mk (((extAfterLastDot s.data).getD []).map Char.toLower)

/-! ## The pager, createPagedNode, loadKey, and the pseudo-loader -/

/-- `SimplePager` configuration and capabilities.  `extentOf` is
`TileKey::getExtent` (profile-supplied); `world` is the profile's SRS → world
projection used by `getBounds`; `createNode` is the virtual tile-content
builder, reduced to the data `createPagedNode` consumes: the bound of the
produced node, or `none` when no node was produced (no content, or a
cooperative cancellation). -/
structure SimplePager where
  rangeFactor : ℝ
  additive : Bool
  minLevel : Nat
  maxLevel : Nat
  extentOf : TileKey → GeoExtent
  world : ℝ × ℝ → E3
  createNode : TileKey → Option BoundingSphere

/-- `SimplePager::getBounds(key)` assembled from the pager's capabilities. -/
noncomputable def SimplePager.getBoundsOf (p : SimplePager) (key : TileKey) : BoundingSphere :=
  getBounds p.world (p.extentOf key)

/-- The builder outcome `createPagedNode` sees: `createNode(key, progress)`
is invoked only when `key.getLevelOfDetail() >= _minLevel`. -/
def builtBound (p : SimplePager) (key : TileKey) : Option BoundingSphere :=
  if p.minLevel ≤ key.lod then p.createNode key else none

/-- Slot 0 of the produced `osg::PagedLOD`: the built tile content (with its
bound) or the empty `osg::Group` placeholder. -/
inductive Slot0Content where
  | placeholder
  | content (bound : BoundingSphere)

/-- The `osg::PagedLOD` state that `createPagedNode` constructs: center and
radius, slot 0's child, the deferred-load filename installed at slot 1 (when
any), and the visibility range `(min, max)` of each slot in order, with
`none` standing for the `FLT_MAX` upper bound. -/
structure PagedLOD where
  center : E3
  radius : ℝ
  slot0 : Slot0Content
  fileName1 : Option String
  ranges : List (ℝ × Option ℝ)

/-- Membership of a viewer distance in a slot's `(min, max)` range;
`osg::LOD` shows a slot when `min ≤ d < max`, and `none` (`FLT_MAX`) is
read as "unbounded above" as the spec does. -/
def inRange (d : ℝ) (r : ℝ × Option ℝ) : Prop :=
  r.1 ≤ d ∧ match r.2 with
  | none => True
  | some hi => d < hi

/-- `SimplePager::createPagedNode`, line for line:
estimate bounds; `hasChildren = lod < maxLevel`; build content only when
`lod ≥ minLevel`, overriding the bounds with the node's own bound on success
and clearing `hasChildren` on failure; substitute an empty placeholder
otherwise; report `max` of the two radii; when `hasChildren`, install the
encoded child-load filename and the replace/additive ranges with
`minRange = radius * rangeFactor`; otherwise a single unbounded range. -/
noncomputable def createPagedNode (p : SimplePager) (key : TileKey) : PagedLOD :=
  let tileBounds0 := p.getBoundsOf key
  let node := builtBound p key
  let tileBounds := node.getD tileBounds0
  let hasChildren : Bool :=
    if p.minLevel ≤ key.lod ∧ (p.createNode key).isNone = true then false
    else decide (key.lod < p.maxLevel)
  let tileRadius := max tileBounds.radius tileBounds0.radius
  let slot0 := match node with
    | some b => Slot0Content.content b
    | none => Slot0Content.placeholder
  if hasChildren then
    let minRange := tileRadius * p.rangeFactor
    if p.additive then
      { center := tileBounds.center, radius := tileRadius, slot0 := slot0
        fileName1 := some (tileURI key)
        ranges := [(0, none), (0, some minRange)] }
    else
      { center := tileBounds.center, radius := tileRadius, slot0 := slot0
        fileName1 := some (tileURI key)
        ranges := [(minRange, none), (0, some minRange)] }
  else
    { center := tileBounds.center, radius := tileRadius, slot0 := slot0
      fileName1 := none, ranges := [(0, none)] }

/-- The loop body of `SimplePager::loadKey` with the per-child producer
abstracted (`createPagedNode` is virtual): build the four canonical children
in order `0..3`, keep the non-null results in one group, and return the group
when it is non-empty, null otherwise. -/
def loadKeyWith (f : TileKey → Option PagedLOD) (key : TileKey) : Option (List PagedLOD) :=
  let group := (List.range 4).filterMap fun i => f (key.createChildKey i)
  if 0 < group.length then some group else none

/-- `SimplePager::loadKey` as written: the producer is this pager's
`createPagedNode`, which always returns a freshly allocated node. -/
noncomputable def loadKey (p : SimplePager) (key : TileKey) : Option (List PagedLOD) :=
  loadKeyWith (fun k => some (createPagedNode p k)) key

/-- The outcome of `SimplePagerPseudoLoader::readNode`. -/
inductive ReadResult where
  | fileNotHandled
  | errorInReading
  | loaded (node : Option (List PagedLOD))
  | undefinedRead

/-- `SimplePagerPseudoLoader::readNode(uri, options)`: reject any uri whose
lowercased final extension is not the registered one (`FILE_NOT_HANDLED`);
report `ERROR_IN_READING_FILE` when the options carry no `SimplePager`
back-reference; otherwise parse `"<lod>_<x>_<y>"` and hand the key to
`loadKey`.  `undefinedRead` marks the path where `sscanf` matched nothing and
the C++ would read uninitialized locals. -/
noncomputable def readNode (pager : Option SimplePager) (uri : String) : ReadResult :=
  if getLowerCaseFileExtension uri ≠ pseudoLoaderExt then ReadResult.fileNotHandled
  else
    match pager with
    | none => ReadResult.errorInReading
    | some p =>
      match scanTriple uri with
      | some (lod, x, y) => ReadResult.loaded (loadKey p { lod := lod, x := x, y := y })
      | none => ReadResult.undefinedRead

/-- A concrete pager (default configuration, unit content bound, trivial
world transform) used to instantiate hypotheses on concrete inputs. -/
noncomputable def demoPager : SimplePager :=
  { rangeFactor := 6
    additive := false
    minLevel := 0
    maxLevel := 30
    extentOf := fun _ => { xMin := 0, yMin := 0, width := 1, height := 1 }
    world := fun _ => 0
    createNode := fun _ => some { center := 0, radius := 1 } }

/-- `demoPager` with a raised floor level, for the below-`minLevel` paths. -/
noncomputable def deepPager : SimplePager := { demoPager with minLevel := 2 }

/-! ## C1: the cancellation predicate -/

lemma usub32_cast (a b : Nat) :
    (usub32 a b : ℤ) = ((a : ℤ) - (b : ℤ)) % (2 ^ 32 : ℤ) := by
  unfold usub32 M32
  have hb : b % 4294967296 ≤ 4294967296 := le_of_lt (Nat.mod_lt _ (by norm_num))
  have h2 : (2 : ℤ) ^ 32 = 4294967296 := by norm_num
  rw [h2]
  push_cast [Nat.cast_sub hb]
  omega

/-- C1: `isCanceled()` is true exactly when the master frame counter has been
destroyed (the observer pointer is invalid) or the unsigned 32-bit difference
`counter.frame - lastSeenFrame` exceeds 1. -/
theorem C1_isCanceled_iff (cb : MyProgressCallback) :
    cb.isCanceled = true ↔
      cb.master = none ∨
        ∃ frame, cb.master = some frame ∧
          1 < ((frame : ℤ) - (cb.lastFrame : ℤ)) % (2 ^ 32 : ℤ) := by
  unfold MyProgressCallback.isCanceled
  cases hm : cb.master with
  | none => simp
  | some frame =>
    simp only [hm, decide_eq_true_eq, Option.some.injEq, reduceCtorEq, false_or]
    constructor
    · intro h
      refine ⟨frame, rfl, ?_⟩
      have := usub32_cast frame cb.lastFrame
      omega
    · rintro ⟨f, hf, hlt⟩
      cases hf
      have := usub32_cast frame cb.lastFrame
      omega

/-! ## C2/C3/C4/C7: createPagedNode range policy -/

/-- C2: in replace mode, for a node with eligible children, slot 0 is visible
on `[minRange, ∞)` and slot 1 on `[0, minRange)` with
`minRange = radius * rangeFactor`, and for every viewer distance `d ≥ 0`
exactly one of the two slots is visible (no gap, no overlap). -/
theorem C2_replace_mode (p : SimplePager) (key : TileKey)
    (hadd : p.additive = false)
    (hch : (createPagedNode p key).fileName1.isSome = true) :
    (createPagedNode p key).ranges =
      [((createPagedNode p key).radius * p.rangeFactor, none),
       (0, some ((createPagedNode p key).radius * p.rangeFactor))] ∧
    ∀ d : ℝ, 0 ≤ d →
      (inRange d ((createPagedNode p key).radius * p.rangeFactor, none) ↔
        ¬ inRange d (0, some ((createPagedNode p key).radius * p.rangeFactor))) := by
  constructor
  · by_cases hmin : p.minLevel ≤ key.lod <;>
      cases hb : p.createNode key <;>
        by_cases h2 : key.lod < p.maxLevel <;>
          simp [createPagedNode, builtBound, hmin, hb, h2, hadd] at hch ⊢
  · intro d hd
    simp [inRange, hd, not_lt]

theorem C2_witness :
    demoPager.additive = false ∧
    (createPagedNode demoPager ⟨0, 0, 0⟩).fileName1.isSome = true ∧
    (createPagedNode demoPager ⟨0, 0, 0⟩).ranges =
      [((createPagedNode demoPager ⟨0, 0, 0⟩).radius * demoPager.rangeFactor, none),
       (0, some ((createPagedNode demoPager ⟨0, 0, 0⟩).radius * demoPager.rangeFactor))] :=
  ⟨rfl, rfl, (C2_replace_mode demoPager ⟨0, 0, 0⟩ rfl rfl).1⟩

/-- C3: at or beyond `maxLevel` the switch node has exactly one slot, its
range is unbounded (`[0, ∞)`, i.e. every distance `d ≥ 0` lies in it), and no
child-load request is registered. -/
theorem C3_max_level (p : SimplePager) (key : TileKey) (h : p.maxLevel ≤ key.lod) :
    (createPagedNode p key).ranges = [(0, none)] ∧
    (createPagedNode p key).fileName1 = none ∧
    ∀ d : ℝ, 0 ≤ d → inRange d (0, none) := by
  have h2 : ¬ key.lod < p.maxLevel := by omega
  refine ⟨?_, ?_, ?_⟩
  · by_cases hmin : p.minLevel ≤ key.lod <;>
      cases hb : p.createNode key <;>
        simp [createPagedNode, builtBound, hmin, hb, h2]
  · by_cases hmin : p.minLevel ≤ key.lod <;>
      cases hb : p.createNode key <;>
        simp [createPagedNode, builtBound, hmin, hb, h2]
  · intro d hd
    simp [inRange, hd]

theorem C3_witness :
    demoPager.maxLevel ≤ (30 : Nat) ∧
    (createPagedNode demoPager ⟨30, 0, 0⟩).ranges = [(0, none)] ∧
    (createPagedNode demoPager ⟨30, 0, 0⟩).fileName1 = none :=
  ⟨by decide, (C3_max_level demoPager ⟨30, 0, 0⟩ (by decide)).1,
    (C3_max_level demoPager ⟨30, 0, 0⟩ (by decide)).2.1⟩

/-- C4: below `minLevel` the builder is never consulted (the result is the
same for every builder), slot 0 is the empty placeholder, and when the level
is also below `maxLevel` a deferred child-load request for this key's encoded
identifier is still registered. -/
theorem C4_below_min_level (p : SimplePager) (key : TileKey) (h : key.lod < p.minLevel) :
    (createPagedNode p key).slot0 = Slot0Content.placeholder ∧
    (∀ b, createPagedNode { p with createNode := b } key = createPagedNode p key) ∧
    (key.lod < p.maxLevel → (createPagedNode p key).fileName1 = some (tileURI key)) := by
  have hninv : ¬ p.minLevel ≤ key.lod := by omega
  refine ⟨?_, ?_, ?_⟩
  · by_cases h2 : key.lod < p.maxLevel <;>
      cases ha : p.additive <;>
        simp [createPagedNode, builtBound, hninv, h2, ha]
  · intro b
    by_cases h2 : key.lod < p.maxLevel <;>
      cases ha : p.additive <;>
        simp [createPagedNode, builtBound, hninv, h2, ha, SimplePager.getBoundsOf]
  · intro hmax
    cases ha : p.additive <;>
      simp [createPagedNode, builtBound, hninv, hmax, ha]

theorem C4_witness :
    (⟨1, 0, 0⟩ : TileKey).lod < deepPager.minLevel ∧
    (createPagedNode deepPager ⟨1, 0, 0⟩).slot0 = Slot0Content.placeholder ∧
    (createPagedNode deepPager ⟨1, 0, 0⟩).fileName1 = some (tileURI ⟨1, 0, 0⟩) :=
  ⟨by decide, (C4_below_min_level deepPager ⟨1, 0, 0⟩ (by decide)).1,
    (C4_below_min_level deepPager ⟨1, 0, 0⟩ (by decide)).2.2 (by decide)⟩

lemma createPagedNode_radius (p : SimplePager) (key : TileKey) :
    (createPagedNode p key).radius =
      max ((builtBound p key).getD (p.getBoundsOf key)).radius (p.getBoundsOf key).radius := by
  by_cases hmin : p.minLevel ≤ key.lod <;>
    cases hb : p.createNode key <;>
      by_cases h2 : key.lod < p.maxLevel <;>
        cases ha : p.additive <;>
          simp [createPagedNode, builtBound, hmin, hb, h2, ha]

/-- C7: the radius reported by the switch node is the maximum of the
post-build bound's radius and the pre-estimated radius — never below the
estimate — and slot 1's switch-in threshold is `radius * rangeFactor`, hence
(for a nonnegative range factor) never below what the estimate alone would
have produced. -/
theorem C7_conservative_radius (p : SimplePager) (key : TileKey)
    (hrf : 0 ≤ p.rangeFactor) :
    (createPagedNode p key).radius =
      max ((builtBound p key).getD (p.getBoundsOf key)).radius (p.getBoundsOf key).radius ∧
    (p.getBoundsOf key).radius ≤ (createPagedNode p key).radius ∧
    (p.getBoundsOf key).radius * p.rangeFactor ≤
      (createPagedNode p key).radius * p.rangeFactor ∧
    ((createPagedNode p key).fileName1.isSome = true →
      (createPagedNode p key).ranges[1]? =
        some (0, some ((createPagedNode p key).radius * p.rangeFactor))) := by
  have hrad := createPagedNode_radius p key
  have hle : (p.getBoundsOf key).radius ≤ (createPagedNode p key).radius := by
    rw [hrad]; exact le_max_right _ _
  refine ⟨hrad, hle, mul_le_mul_of_nonneg_right hle hrf, ?_⟩
  intro hch
  by_cases hmin : p.minLevel ≤ key.lod <;>
    cases hb : p.createNode key <;>
      by_cases h2 : key.lod < p.maxLevel <;>
        cases ha : p.additive <;>
          simp [createPagedNode, builtBound, hmin, hb, h2, ha] at hch ⊢

theorem C7_witness :
    (0 : ℝ) ≤ demoPager.rangeFactor ∧
    (SimplePager.getBoundsOf demoPager ⟨0, 0, 0⟩).radius ≤
      (createPagedNode demoPager ⟨0, 0, 0⟩).radius :=
  ⟨by norm_num [demoPager],
    (C7_conservative_radius demoPager ⟨0, 0, 0⟩ (by norm_num [demoPager])).2.1⟩

/-! ## C9/C10: loadKey -/

lemma loadKey_eq (p : SimplePager) (key : TileKey) :
    loadKey p key =
      some ((List.range 4).map fun i => createPagedNode p (key.createChildKey i)) := by
  rfl

/-- C9: `loadKey` yields at most 4 subtrees — exactly the non-absent results
of the per-child producer over the 4 canonical children, in enumeration order
0..3 — and when all 4 children yield nothing it returns the explicit absent
value. -/
theorem C9_loadChildren_shape (f : TileKey → Option PagedLOD) (key : TileKey) :
    (∀ l, loadKeyWith f key = some l →
      l = ((List.range 4).map key.createChildKey).filterMap f ∧ l.length ≤ 4) ∧
    ((∀ i, i < 4 → f (key.createChildKey i) = none) → loadKeyWith f key = none) := by
  have hmap : ((List.range 4).map key.createChildKey).filterMap f
      = (List.range 4).filterMap fun i => f (key.createChildKey i) := by
    rw [List.filterMap_map]; rfl
  constructor
  · intro l hl
    unfold loadKeyWith at hl
    by_cases hlen : 0 < ((List.range 4).filterMap fun i => f (key.createChildKey i)).length
    · simp only [if_pos hlen, Option.some.injEq] at hl
      subst hl
      refine ⟨hmap.symm, ?_⟩
      calc ((List.range 4).filterMap fun i => f (key.createChildKey i)).length
          ≤ (List.range 4).length := List.length_filterMap_le _ _
        _ = 4 := by simp
    · simp only [if_neg hlen] at hl
      exact absurd hl (by simp)
  · intro hall
    unfold loadKeyWith
    have hnil : ((List.range 4).filterMap fun i => f (key.createChildKey i)) = [] := by
      rw [List.filterMap_eq_nil_iff]
      intro i hi
      exact hall i (List.mem_range.mp hi)
    simp [hnil]

theorem C9_witness : loadKeyWith (fun _ => none) ⟨0, 0, 0⟩ = none :=
  (C9_loadChildren_shape (fun _ => none) ⟨0, 0, 0⟩).2 (fun _ _ => rfl)

/-- C10: with this implementation's `createPagedNode` as the producer — which
returns a fully constructed switch node for every key and builder outcome —
`loadKey` always returns a group of exactly 4 child subtrees, so its absent
branch is unreachable. -/
theorem C10_loadKey_never_absent (p : SimplePager) (key : TileKey) :
    loadKey p key =
      some ((List.range 4).map fun i => createPagedNode p (key.createChildKey i)) ∧
    ((List.range 4).map fun i => createPagedNode p (key.createChildKey i)).length = 4 :=
  ⟨loadKey_eq p key, by simp⟩

/-! ## C6: the pseudo-loader's two failure outcomes -/

/-- C6: the two failure outcomes are distinct and never conflated: a uri whose
lowercased final suffix is not the registered tag is the soft
`FILE_NOT_HANDLED` outcome, while a tag-matching uri whose context lacks the
pager back-reference is the hard `ERROR_IN_READING_FILE` outcome. -/
theorem C6_error_kinds (pager : Option SimplePager) (uri : String) :
    (getLowerCaseFileExtension uri ≠ pseudoLoaderExt →
      readNode pager uri = ReadResult.fileNotHandled) ∧
    (getLowerCaseFileExtension uri = pseudoLoaderExt → pager = none →
      readNode pager uri = ReadResult.errorInReading) ∧
    ReadResult.fileNotHandled ≠ ReadResult.errorInReading := by
  refine ⟨?_, ?_, ?_⟩
  · intro h
    simp [readNode, h]
  · intro h hp
    subst hp
    simp [readNode, h]
  · intro h
    exact ReadResult.noConfusion h

theorem C6_witness :
    readNode (some demoPager) "tile.wrong" = ReadResult.fileNotHandled ∧
    readNode none "1_2_3.osgearth_pseudo_simple" = ReadResult.errorInReading :=
  ⟨(C6_error_kinds (some demoPager) "tile.wrong").1 (by decide),
   (C6_error_kinds none "1_2_3.osgearth_pseudo_simple").2.1 (by decide) rfl⟩

/-! ## C5: decimal encoding and the sscanf round-trip -/

lemma digitChar_isDigit (d : Nat) (hd : d < 10) : (Nat.digitChar d).isDigit = true := by
  interval_cases d <;> decide

lemma digitChar_toNat (d : Nat) (hd : d < 10) : (Nat.digitChar d).toNat = 48 + d := by
  interval_cases d <;> decide

lemma natToDecimalAux_ne_nil (fuel n : Nat) (h : n < fuel) : natToDecimalAux fuel n ≠ [] := by
  cases fuel with
  | zero => omega
  | succ f =>
    unfold natToDecimalAux
    by_cases h10 : n < 10 <;> simp [h10]

lemma natToDecimalAux_digits (fuel : Nat) : ∀ n, n < fuel →
    ∀ c ∈ natToDecimalAux fuel n, c.isDigit = true := by
  induction fuel with
  | zero => omega
  | succ f ih =>
    intro n hn c hc
    unfold natToDecimalAux at hc
    by_cases h10 : n < 10
    · simp only [if_pos h10, List.mem_singleton] at hc
      subst hc
      exact digitChar_isDigit n h10
    · simp only [if_neg h10, List.mem_append, List.mem_singleton] at hc
      have hdiv : n / 10 < n := Nat.div_lt_self (by omega) (by norm_num)
      rcases hc with hc | hc
      · exact ih (n / 10) (by omega) c hc
      · subst hc
        exact digitChar_isDigit (n % 10) (Nat.mod_lt _ (by norm_num))

lemma digitsToNat_append (ds : List Char) (c : Char) :
    digitsToNat (ds ++ [c]) = 10 * digitsToNat ds + (c.toNat - 48) := by
  unfold digitsToNat
  rw [List.foldl_append]
  rfl

lemma natToDecimalAux_decode (fuel : Nat) : ∀ n, n < fuel →
    digitsToNat (natToDecimalAux fuel n) = n := by
  induction fuel with
  | zero => omega
  | succ f ih =>
    intro n hn
    unfold natToDecimalAux
    by_cases h10 : n < 10
    · rw [if_pos h10]
      unfold digitsToNat
      simp only [List.foldl_cons, List.foldl_nil, digitChar_toNat n h10]
      omega
    · rw [if_neg h10]
      have hdiv : n / 10 < n := Nat.div_lt_self (by omega) (by norm_num)
      rw [digitsToNat_append, digitChar_toNat _ (Nat.mod_lt _ (by norm_num)),
        ih (n / 10) (by omega)]
      omega

lemma natToDecimal_digits (n : Nat) : ∀ c ∈ natToDecimal n, c.isDigit = true :=
  natToDecimalAux_digits (n + 1) n (Nat.lt_succ_self n)

lemma natToDecimal_decode (n : Nat) : digitsToNat (natToDecimal n) = n :=
  natToDecimalAux_decode (n + 1) n (Nat.lt_succ_self n)

lemma natToDecimal_ne_nil (n : Nat) : natToDecimal n ≠ [] :=
  natToDecimalAux_ne_nil (n + 1) n (Nat.lt_succ_self n)

/-- The head of a character list is not a digit (vacuously true when empty). -/
def headNotDigit : List Char → Prop
  | [] => True
  | c :: _ => c.isDigit = false

lemma takeDigits_head_not_digit (l : List Char) (h : headNotDigit l) :
    takeDigits l = ([], l) := by
  cases l with
  | nil => rfl
  | cons c cs =>
    unfold takeDigits
    rw [if_neg]
    simp only [headNotDigit] at h
    simp [h]

lemma takeDigits_append (ds rest : List Char) (h1 : ∀ c ∈ ds, c.isDigit = true)
    (h2 : headNotDigit rest) : takeDigits (ds ++ rest) = (ds, rest) := by
  induction ds with
  | nil => simpa using takeDigits_head_not_digit rest h2
  | cons d ds ih =>
    have hd : d.isDigit = true := h1 d (by simp)
    unfold takeDigits
    simp only [List.cons_append, hd, if_true]
    rw [ih (fun c hc => h1 c (by simp [hc]))]

lemma extAfterLastDot_no_dot (l : List Char) (h : '.' ∉ l) :
    extAfterLastDot l = none := by
  induction l with
  | nil => rfl
  | cons c cs ih =>
    have h1 : ¬ ('.' = c ∨ '.' ∈ cs) := by simpa using h
    push_neg at h1
    unfold extAfterLastDot
    rw [ih h1.2]
    exact if_neg (Ne.symm h1.1)

lemma extAfterLastDot_append (xs ys : List Char) (e : List Char)
    (h : extAfterLastDot ys = some e) : extAfterLastDot (xs ++ ys) = some e := by
  induction xs with
  | nil => simpa using h
  | cons c cs ih =>
    simp only [List.cons_append, extAfterLastDot, List.append_eq, ih]

lemma extAfterLastDot_dot (tag : List Char) (h : '.' ∉ tag) :
    extAfterLastDot ('.' :: tag) = some tag := by
  unfold extAfterLastDot
  rw [extAfterLastDot_no_dot tag h]
  simp

lemma tileURI_data (key : TileKey) :
    (tileURI key).data =
      (natToDecimal key.lod ++ '_' :: natToDecimal key.x ++ '_' :: natToDecimal key.y)
        ++ '.' :: pseudoLoaderExt.data := by
  show natToDecimal key.lod ++
      '_' :: (natToDecimal key.x ++ '_' :: (natToDecimal key.y ++ '.' :: pseudoLoaderExt.data)) = _
  simp [List.append_assoc]

lemma tileURI_ext (key : TileKey) :
    getLowerCaseFileExtension (tileURI key) = pseudoLoaderExt := by
  unfold getLowerCaseFileExtension
  rw [tileURI_data,
    extAfterLastDot_append _ _ _ (extAfterLastDot_dot pseudoLoaderExt.data (by decide))]
  decide

lemma scanTriple_tileURI (key : TileKey) :
    scanTriple (tileURI key) = some (key.lod, key.x, key.y) := by
  have t1 : takeDigits ((tileURI key).data) =
      (natToDecimal key.lod,
        '_' :: (natToDecimal key.x ++ '_' :: (natToDecimal key.y ++ '.' :: pseudoLoaderExt.data))) :=
    takeDigits_append _ _ (natToDecimal_digits key.lod)
      (show ('_' : Char).isDigit = false by decide)
  have t2 : takeDigits (natToDecimal key.x ++
        '_' :: (natToDecimal key.y ++ '.' :: pseudoLoaderExt.data)) =
      (natToDecimal key.x, '_' :: (natToDecimal key.y ++ '.' :: pseudoLoaderExt.data)) :=
    takeDigits_append _ _ (natToDecimal_digits key.x)
      (show ('_' : Char).isDigit = false by decide)
  have t3 : takeDigits (natToDecimal key.y ++ '.' :: pseudoLoaderExt.data) =
      (natToDecimal key.y, '.' :: pseudoLoaderExt.data) :=
    takeDigits_append _ _ (natToDecimal_digits key.y)
      (show ('.' : Char).isDigit = false by decide)
  simp only [scanTriple, t1, t2, t3]
  simp [natToDecimal_ne_nil, natToDecimal_decode]

lemma readNode_tileURI (p : SimplePager) (key : TileKey) :
    readNode (some p) (tileURI key) = ReadResult.loaded (loadKey p key) := by
  unfold readNode
  rw [tileURI_ext]
  simp [scanTriple_tileURI]

/-- C5: the deferred-load identifier round-trips — for every key, the
registered identifier `"<level>_<x>_<y>.<tag>"` is parsed back by the bridge
to the same triple and handed to `loadKey` with exactly that key — and
resolving the concrete id `"1_2_3.osgearth_pseudo_simple"` with a valid
context yields the group of the 4 canonical children
`(2,4,6), (2,5,6), (2,4,7), (2,5,7)`. -/
theorem C5_identifier_roundtrip :
    (∀ (p : SimplePager) (key : TileKey),
      scanTriple (tileURI key) = some (key.lod, key.x, key.y) ∧
      readNode (some p) (tileURI key) = ReadResult.loaded (loadKey p key)) ∧
    ((List.range 4).map (TileKey.createChildKey ⟨1, 2, 3⟩) =
      [⟨2, 4, 6⟩, ⟨2, 5, 6⟩, ⟨2, 4, 7⟩, ⟨2, 5, 7⟩]) ∧
    (∀ p : SimplePager,
      readNode (some p) "1_2_3.osgearth_pseudo_simple" =
        ReadResult.loaded (some [createPagedNode p ⟨2, 4, 6⟩, createPagedNode p ⟨2, 5, 6⟩,
          createPagedNode p ⟨2, 4, 7⟩, createPagedNode p ⟨2, 5, 7⟩])) := by
  refine ⟨fun p key => ⟨scanTriple_tileURI key, readNode_tileURI p key⟩, by decide, ?_⟩
  intro p
  have huri : ("1_2_3.osgearth_pseudo_simple" : String) = tileURI ⟨1, 2, 3⟩ := by decide
  rw [huri, readNode_tileURI, loadKey_eq]
  rfl

/-! ## C8: the bounds estimator's sample grid and enclosure -/

lemma dist_expandBy_self (bs : BoundingSphere) (v : E3) :
    dist v (bs.expandBy v).center ≤ (bs.expandBy v).radius := by
  simp only [BoundingSphere.expandBy]
  by_cases h : 0 ≤ bs.radius
  · simp only [if_pos h]
    by_cases h2 : bs.radius < dist v bs.center
    · simp only [if_pos h2]
      set r := dist v bs.center with hr
      have hrpos : 0 < r := lt_of_le_of_lt h h2
      set dr := (r - bs.radius) / 2 with hdr
      have hv : v - (bs.center + (dr / r) • (v - bs.center)) =
          (1 - dr / r) • (v - bs.center) := by
        rw [sub_smul, one_smul]
        abel
      rw [dist_eq_norm, hv, norm_smul, Real.norm_eq_abs]
      have hnorm : ‖v - bs.center‖ = r := by rw [hr, dist_eq_norm]
      rw [hnorm]
      have ht : 0 ≤ 1 - dr / r := by
        rw [sub_nonneg, div_le_one hrpos, hdr]
        linarith
      rw [abs_of_nonneg ht, sub_mul, one_mul, div_mul_cancel₀ _ (ne_of_gt hrpos), hdr]
      linarith
    · simp only [if_neg h2]
      exact not_lt.mp h2
  · simp only [if_neg h]
    simp

lemma dist_expandBy_mono (bs : BoundingSphere) (v q : E3)
    (h : dist q bs.center ≤ bs.radius) :
    dist q (bs.expandBy v).center ≤ (bs.expandBy v).radius := by
  simp only [BoundingSphere.expandBy]
  by_cases h0 : 0 ≤ bs.radius
  · simp only [if_pos h0]
    by_cases h2 : bs.radius < dist v bs.center
    · simp only [if_pos h2]
      set r := dist v bs.center with hr
      have hrpos : 0 < r := lt_of_le_of_lt h0 h2
      set dr := (r - bs.radius) / 2 with hdr
      have hdrnn : 0 ≤ dr := by rw [hdr]; linarith
      have htri : dist q (bs.center + (dr / r) • (v - bs.center)) ≤
          dist q bs.center + dist bs.center (bs.center + (dr / r) • (v - bs.center)) :=
        dist_triangle _ _ _
      have hcc : dist bs.center (bs.center + (dr / r) • (v - bs.center)) = dr := by
        rw [dist_self_add_right, norm_smul, Real.norm_eq_abs]
        have hnorm : ‖v - bs.center‖ = r := by rw [hr, dist_eq_norm]
        rw [hnorm, abs_of_nonneg (div_nonneg hdrnn (le_of_lt hrpos)),
          div_mul_cancel₀ _ (ne_of_gt hrpos)]
      linarith
    · simp only [if_neg h2]
      exact h
  · exfalso
    have hq := dist_nonneg (x := q) (y := bs.center)
    have := not_le.mp h0
    linarith

lemma foldl_expandBy_mono (world : ℝ × ℝ → E3) (l : List (ℝ × ℝ)) (bs : BoundingSphere)
    (q : E3) (h : dist q bs.center ≤ bs.radius) :
    dist q ((l.foldl (fun b a => b.expandBy (world a)) bs).center) ≤
      (l.foldl (fun b a => b.expandBy (world a)) bs).radius := by
  induction l generalizing bs with
  | nil => exact h
  | cons a t ih =>
    simp only [List.foldl_cons]
    exact ih _ (dist_expandBy_mono _ _ _ h)

lemma foldl_expandBy_contains (world : ℝ × ℝ → E3) (l : List (ℝ × ℝ)) (bs : BoundingSphere) :
    ∀ q ∈ l, dist (world q) ((l.foldl (fun b a => b.expandBy (world a)) bs).center) ≤
      (l.foldl (fun b a => b.expandBy (world a)) bs).radius := by
  induction l generalizing bs with
  | nil => intro q hq; cases hq
  | cons a t ih =>
    intro q hq
    simp only [List.foldl_cons]
    rcases List.mem_cons.mp hq with hqa | hqt
    · subst hqa
      exact foldl_expandBy_mono world t _ _ (dist_expandBy_self bs (world q))
    · exact ih _ q hqt

/-- C8 (amended): the estimator samples a fixed `(S+1)×(S+1)` grid with
`S = 6` — exactly 49 sample points, not the 36 of an `S×S` grid — uniformly
across the key's extent, and the incrementally expanded sphere returned by
`getBounds` encloses the world-space image of every sample point. -/
theorem C8_bounds_sampling (p : SimplePager) (key : TileKey) :
    (samplePoints (p.extentOf key)).length = 49 ∧
    ∀ q ∈ samplePoints (p.extentOf key),
      dist (p.world q) (p.getBoundsOf key).center ≤ (p.getBoundsOf key).radius := by
  constructor
  · rfl
  · intro q hq
    exact foldl_expandBy_contains p.world _ _ q hq

/-- C8 counterexample: at a concrete key the estimator produces 49 sample
points, not the 36 that an S×S grid with S = 6 would give. -/
theorem C8_counterexample :
    (samplePoints (demoPager.extentOf ⟨0, 0, 0⟩)).length = 49 ∧
    (samplePoints (demoPager.extentOf ⟨0, 0, 0⟩)).length ≠ 6 * 6 := by
  constructor
  · rfl
  · have h : (samplePoints (demoPager.extentOf ⟨0, 0, 0⟩)).length = 49 := rfl
    omega

theorem C8_witness :
    ((0 : ℝ), (0 : ℝ)) ∈ samplePoints (demoPager.extentOf ⟨0, 0, 0⟩) ∧
    dist (demoPager.world ((0 : ℝ), (0 : ℝ))) (demoPager.getBoundsOf ⟨0, 0, 0⟩).center ≤
      (demoPager.getBoundsOf ⟨0, 0, 0⟩).radius := by
  have hm : ((0 : ℝ), (0 : ℝ)) ∈ samplePoints (demoPager.extentOf ⟨0, 0, 0⟩) := by
    have h : ((0 : ℝ), (0 : ℝ)) =
        ((demoPager.extentOf ⟨0, 0, 0⟩).xMin +
            ((0 : Nat) : ℝ) * ((demoPager.extentOf ⟨0, 0, 0⟩).width / ((6 : Nat) : ℝ)),
         (demoPager.extentOf ⟨0, 0, 0⟩).yMin +
            ((0 : Nat) : ℝ) * ((demoPager.extentOf ⟨0, 0, 0⟩).height / ((6 : Nat) : ℝ))) := by
      norm_num [demoPager]
    rw [h]
    unfold samplePoints
    exact List.mem_flatMap.mpr ⟨0, by decide, List.mem_map.mpr ⟨0, by decide, rfl⟩⟩
  exact ⟨hm, (C8_bounds_sampling demoPager ⟨0, 0, 0⟩).2 _ hm⟩
